import Mathlib

/-
Verification of Filemaid (filemaid.py): a shallow embedding of the rule-matching
and action-application engine, together with proofs about its behaviour.

Paths are strings.  String-processing helpers from the Python standard library
(os.path.join, os.path.normpath, os.path.abspath, os.path.expanduser,
os.path.basename, str.split, str.lower) are re-implemented here over the
character list of a string, following the CPython posixpath source, so that all
definitions evaluate inside the kernel.
-/

namespace Filemaid

/-! ## String helpers -/

/-- True when the first character of the string is the given character. -/
def strStarts (s : String) (c : Char) : Bool := s.data.head? = some c

/-- True when the last character of the string is the given character. -/
def strEnds (s : String) (c : Char) : Bool := s.data.getLast? = some c

/-- os.path.join for two components (posixpath.join): an absolute second
component replaces the first; otherwise they are glued with a single slash
unless the first already ends in one or is empty. -/
def pjoin (a b : String) : String :=
  if strStarts b '/' then b
  else if a = "" ∨ strEnds a '/' then a ++ b
  else a ++ "/" ++ b

/-- Characters after the last slash of the list (helper for basename). -/
def afterLastSlash (l : List Char) : List Char :=
  l.foldl (fun acc c => if c = '/' then [] else acc ++ [c]) []

/-- os.path.basename: the part of the path after the last slash. -/
def basename (p : String) : String := String.mk (afterLastSlash p.data)

/-- str.split with a slash separator, as used by posixpath.normpath:
returns the (possibly empty) components between slashes. -/
def splitSlash : List Char → List (List Char)
  | [] => [[]]
  | c :: rest =>
    match splitSlash rest with
    | [] => [[]]
    | h :: t => if c = '/' then [] :: h :: t else (c :: h) :: t

/-- posixpath.normpath: collapse repeated slashes and resolve the dot and
dot-dot components, preserving the special treatment of exactly two leading
slashes. -/
def normpath (p : String) : String :=
  if p = "" then "."
  else
    let initialSlashes : Nat :=
      if strStarts p '/' then
        if p.data.take 2 = ['/', '/'] ∧ ¬ p.data.take 3 = ['/', '/', '/'] then 2 else 1
      else 0
    let comps := (splitSlash p.data).map (fun l => String.mk l)
    let newComps := comps.foldl
      (fun acc comp =>
        if comp = "" ∨ comp = "." then acc
        else if comp ≠ ".." ∨ (initialSlashes = 0 ∧ acc = []) ∨ acc.getLast? = some ".." then
          acc ++ [comp]
        else if acc ≠ [] then acc.dropLast
        else acc)
      ([] : List String)
    let res := String.mk (List.replicate initialSlashes '/') ++ String.intercalate "/" newComps
    if res = "" then "." else res

/-- os.path.abspath: join a relative path onto the current working directory
(passed explicitly here) and normalise. -/
def abspath (cwd p : String) : String :=
  if strStarts p '/' then normpath p else normpath (pjoin cwd p)

/-- os.path.expanduser, with the home directory passed explicitly.  Only the
bare-tilde form is expanded; a tilde naming another user is returned unchanged
(the per-user password database is not modelled, which coincides with
CPython's behaviour for an unknown user). -/
def expanduser (home p : String) : String :=
  if ¬ strStarts p '~' then p
  else
    let i := match (p.data.drop 1).findIdx? (fun c => c = '/') with
      | some j => j + 1
      | none => p.data.length
    if i > 1 then p
    else
      let userhome := String.mk ((home.data.reverse.dropWhile (fun c => c = '/')).reverse)
      let res := userhome ++ String.mk (p.data.drop i)
      if res = "" then "/" else res

/-- str.split() with no separator: split on runs of whitespace, dropping empty
pieces. -/
def pySplitWs (s : String) : List String :=
  ((s.data.splitOnP (fun c => c.isWhitespace)).filter (fun l => ¬ l = [])).map String.mk

/-- Lower-case an ASCII letter (str.lower, restricted to ASCII as the unit and
comparator tokens are ASCII). -/
def lowerChar (c : Char) : Char :=
  if 65 ≤ c.toNat ∧ c.toNat ≤ 90 then Char.ofNat (c.toNat + 32) else c

/-- str.lower over a whole string. -/
def lowerStr (s : String) : String := String.mk (s.data.map lowerChar)

/-- Parse an unsigned decimal integer.  The source parses magnitudes with
int() (age) and float() (size); the model covers the unsigned-integer
magnitudes, which is exact for every comparison the claims mention. -/
def parseNat? (s : String) : Option Nat :=
  if ¬ s = "" ∧ s.data.all (fun c => 48 ≤ c.toNat ∧ c.toNat ≤ 57) then
    some (s.data.foldl (fun n c => 10 * n + (c.toNat - 48)) 0)
  else none

/-! ## Filesystem model

A filesystem is a finite map from path strings to entry metadata.  Directory
entries carry isfile = false.  The MIME type that libmagic would sniff from
the first bytes of a file is part of the modelled metadata (the sniffing
itself, and the magic_bytes read bound, are abstracted).  Python's os.stat
raises on a missing path and aborts the run (spec section 7); the evaluator
below returns false there, a case no theorem relies on. -/

structure EntryStat where
  isfile : Bool
  size : Nat
  mtime : Int
  mime : String
deriving DecidableEq, Repr

structure FS where
  entries : List (String × EntryStat)
deriving DecidableEq, Repr

def FS.stat? (fs : FS) (p : String) : Option EntryStat := fs.entries.lookup p

def FS.isFile (fs : FS) (p : String) : Bool := (fs.stat? p).elim false (fun st => st.isfile)

/-- Metadata for a directory created by os.makedirs (the concrete numbers are
immaterial to every claim). -/
def dirStat : EntryStat := ⟨false, 0, 0, "inode/directory"⟩

/-- os.makedirs(d, exist_ok=True).  Creation of intermediate parents is not
modelled; no claim depends on it. -/
def FS.makedirs (fs : FS) (d : String) : FS :=
  match fs.stat? d with
  | some _ => fs
  | none => ⟨fs.entries ++ [(d, dirStat)]⟩

/-- os.remove.  Removing a missing path raises in Python and aborts the run;
modelled as the identity there, a case no theorem relies on. -/
def FS.remove (fs : FS) (p : String) : FS :=
  ⟨fs.entries.filter (fun e => ¬ e.1 = p)⟩

/-- shutil.move of src to the concrete destination path dst (the destination
directory join has already happened at the call site).  A missing source
raises in Python; modelled as the identity there. -/
def FS.moveFile (fs : FS) (src dst : String) : FS :=
  match fs.stat? src with
  | some st => ⟨((fs.remove src).entries.filter (fun e => ¬ e.1 = dst)) ++ [(dst, st)]⟩
  | none => fs

/-- shutil.copy2 of src to the concrete destination path dst: duplicates the
entry, metadata included, overwriting any previous entry at dst. -/
def FS.copyFile (fs : FS) (src dst : String) : FS :=
  match fs.stat? src with
  | some st => ⟨(fs.entries.filter (fun e => ¬ e.1 = dst)) ++ [(dst, st)]⟩
  | none => fs

/-! ## Comparison expressions (AgeCondition / SizeCondition parsing) -/

inductive Cmp where
  | gt | ge | eq | le | lt
deriving DecidableEq, Repr

/-- The COMPARATORS table shared by AgeCondition and SizeCondition. -/
def comparators (s : String) : Option Cmp :=
  if s = ">" then some .gt
  else if s = ">=" then some .ge
  else if s = "=" then some .eq
  else if s = "<=" then some .le
  else if s = "<" then some .lt
  else none

def Cmp.holds : Cmp → Int → Int → Bool
  | .gt, a, b => decide (a > b)
  | .ge, a, b => decide (a ≥ b)
  | .eq, a, b => decide (a = b)
  | .le, a, b => decide (a ≤ b)
  | .lt, a, b => decide (a < b)

/-- SizeCondition.UNITS, verbatim from the source (note the inverted naming:
the plain suffixes are powers of 1024 and the -ib suffixes powers of 1000). -/
def sizeUnits (s : String) : Option Nat :=
  if s = "b" then some 1
  else if s = "kb" then some 1024
  else if s = "mb" then some (1024 ^ 2)
  else if s = "gb" then some (1024 ^ 3)
  else if s = "tb" then some (1024 ^ 4)
  else if s = "kib" then some 1000
  else if s = "mib" then some (1000 ^ 2)
  else if s = "gib" then some (1000 ^ 3)
  else if s = "tib" then some (1000 ^ 4)
  else none

/-- Seconds bound to each datetime.timedelta keyword accepted by
AgeCondition.UNITS. -/
def ageUnitSeconds (s : String) : Option Nat :=
  if s = "seconds" then some 1
  else if s = "minutes" then some 60
  else if s = "hours" then some 3600
  else if s = "days" then some 86400
  else if s = "weeks" then some 604800
  else none

/-- SizeCondition.parse_size_condition: tokenize into comparator, magnitude
and unit; the threshold in bytes is the unit weight (looked up on the
lower-cased token) times the magnitude. -/
def parseSizeCondition (s : String) : Option (Cmp × Nat) :=
  match pySplitWs s with
  | [cs, ms, us] =>
    match comparators cs, sizeUnits (lowerStr us), parseNat? ms with
    | some cmp, some unit, some mag => some (cmp, unit * mag)
    | _, _, _ => none
  | _ => none

/-- AgeCondition.parse_age_condition: comparator, magnitude and a timedelta
unit keyword (lower-cased); the threshold is kept in seconds. -/
def parseAgeCondition (s : String) : Option (Cmp × Int) :=
  match pySplitWs s with
  | [cs, ms, us] =>
    match comparators cs, ageUnitSeconds (lowerStr us), parseNat? ms with
    | some cmp, some unit, some mag => some (cmp, (unit * mag : Nat))
    | _, _, _ => none
  | _ => none

/-! ## Condition trees

A closed sum of the Matchable subclasses.  The age and size leaves carry the
comparator and threshold their constructors parse out of the condition string
(parsing happens at construction time in the source).  Regular-expression
matching (re.compile(pattern, flags).match(string), a prefix-anchored match)
is abstracted as an oracle carried by the environment; datetime.now() is the
environment's clock. -/

inductive Condition where
  | all : List Condition → Condition
  | anyc : List Condition → Condition
  | notc : Condition → Condition
  | pathc : String → Condition
  | mimec : String → Bool → Int → Condition
  | agec : Cmp → Int → Condition
  | sizec : Cmp → Nat → Condition

structure Env where
  regexMatch : String → Bool → String → Bool
  now : Int

/- Condition evaluation (the match methods; match is a Lean keyword).  The
composite clauses mirror AllCondition.match, AnyCondition.match and
NotCondition.match; the leaves mirror PathCondition, MimeCondition (a
non-file never matches; the sniffed MIME type is the entry's recorded one),
AgeCondition (now minus st_mtime compared with the parsed timedelta) and
SizeCondition (st_size compared with the parsed byte threshold).  The
per-instance lru_cache on MimeCondition.match caches a pure function of the
unchanged-within-a-pass file contents and is not modelled. -/
mutual
def Condition.eval (env : Env) (fs : FS) : Condition → String → Bool
  | .all cs, p => evalAll env fs cs p
  | .anyc cs, p => evalAny env fs cs p
  | .notc c, p => !(Condition.eval env fs c p)
  | .pathc rx, p => env.regexMatch rx false p
  | .mimec rx ic _, p =>
    if fs.isFile p then env.regexMatch rx ic ((fs.stat? p).elim "" (fun st => st.mime))
    else false
  | .agec cmp delta, p => (fs.stat? p).elim false (fun st => cmp.holds (env.now - st.mtime) delta)
  | .sizec cmp threshold, p => (fs.stat? p).elim false (fun st => cmp.holds st.size threshold)
def evalAll (env : Env) (fs : FS) : List Condition → String → Bool
  | [], _ => true
  | c :: cs, p => Condition.eval env fs c p && evalAll env fs cs p
def evalAny (env : Env) (fs : FS) : List Condition → String → Bool
  | [], _ => false
  | c :: cs, p => Condition.eval env fs c p || evalAny env fs cs p
end

/-- Operational model of all(condition.match(path) for condition in cs): the
generator is consumed left to right and stops at the first falsy element.
The second component counts how many children were actually invoked. -/
def evalAllTrace (env : Env) (fs : FS) : List Condition → String → Bool × Nat
  | [], _ => (true, 0)
  | c :: cs, p =>
    if Condition.eval env fs c p then
      let res := evalAllTrace env fs cs p
      (res.1, res.2 + 1)
    else (false, 1)

/-- Operational model of any(...): stops at the first truthy element. -/
def evalAnyTrace (env : Env) (fs : FS) : List Condition → String → Bool × Nat
  | [], _ => (false, 0)
  | c :: cs, p =>
    if Condition.eval env fs c p then (true, 1)
    else
      let res := evalAnyTrace env fs cs p
      (res.1, res.2 + 1)

/-- MimeCondition.match with an extra flag recording whether the file was
opened, read and sniffed (true only on the isfile branch). -/
def mimeEvalTrace (env : Env) (fs : FS) (rx : String) (ic : Bool) (p : String) : Bool × Bool :=
  if fs.isFile p then
    (env.regexMatch rx ic ((fs.stat? p).elim "" (fun st => st.mime)), true)
  else (false, false)

/-! ## Actions and rules -/

/-- The BaseAction subclasses.  Move and Copy store their destination
directory already passed through os.path.expanduser, as their constructors
do. -/
inductive Action where
  | move : String → Action
  | copy : String → Action
  | delete : Action
deriving DecidableEq, Repr

/-- The ignore_paths a constructor adds: the destination directory for Move
and Copy, nothing for Delete. -/
def Action.ignorePaths : Action → List String
  | .move d => [d]
  | .copy d => [d]
  | .delete => []

/-- Action.apply: the optional new path returned, and the filesystem after
the side effect.  Move creates the destination directory, relocates the file
into it and returns the new full path (shutil.move with a directory
destination); Copy creates the directory and duplicates the file with its
metadata, returning nothing; Delete removes the file and returns nothing. -/
def Action.apply (fs : FS) (p : String) : Action → Option String × FS
  | .move d =>
    let fs1 := fs.makedirs d
    let np := pjoin d (basename p)
    (some np, fs1.moveFile p np)
  | .copy d =>
    let fs1 := fs.makedirs d
    (none, fs1.copyFile p (pjoin d (basename p)))
  | .delete => (none, fs.remove p)

structure Rule where
  name : String
  condition : Condition
  actions : List Action

/-- Rule.ignore_paths: the union of the constituent actions' ignore paths
(membership in this list models membership in the Python set). -/
def Rule.ignorePaths (r : Rule) : List String := r.actions.flatMap Action.ignorePaths

def Rule.matches (env : Env) (fs : FS) (r : Rule) (p : String) : Bool :=
  Condition.eval env fs r.condition p

/-- Rule.apply: thread the path through the action chain; an action returning
a falsy value (None, or an empty string, since the source uses the
expression (action.apply(path) or path)) leaves the carried path unchanged. -/
def Rule.applyChain (fs : FS) (p : String) : List Action → FS × String
  | [] => (fs, p)
  | a :: rest =>
    let step := Action.apply fs p a
    Rule.applyChain step.2
      (match step.1 with
       | some s => if s = "" then p else s
       | none => p)
      rest

/-! ## The engine loop (main) -/

/-- One observable event of a run: a rule applied to a path (non-dry-run) or
a dry-run report line of the form rule-name colon path. -/
inductive Event where
  | applied : String → String → Event
  | reported : String → String → Event
deriving DecidableEq, Repr

/-- The inner loop of main over the rules for one candidate path.  On a match
in dry-run mode the rule name and path are printed and the loop continues;
otherwise the rule is applied and the loop breaks. -/
def processPath (env : Env) (dryRun : Bool) (rules : List Rule) (fs : FS) (p : String) :
    FS × List Event :=
  match rules with
  | [] => (fs, [])
  | r :: rest =>
    if Rule.matches env fs r p then
      if dryRun then
        let res := processPath env dryRun rest fs p
        (res.1, Event.reported r.name p :: res.2)
      else
        ((Rule.applyChain fs p r.actions).1, [Event.applied r.name p])
    else processPath env dryRun rest fs p

/-- The outer loop of main over an already-filtered candidate list. -/
def processCandidates (env : Env) (dryRun : Bool) (rules : List Rule) (fs : FS) :
    List String → FS × List Event
  | [] => (fs, [])
  | c :: cs =>
    let step := processPath env dryRun rules fs c
    let rest := processCandidates env dryRun rules step.1 cs
    (rest.1, step.2 ++ rest.2)

/-- The outer loop of main as written: the generator expression filters out
candidates that are members of the ignore set before any rule is consulted. -/
def mainLoop (env : Env) (dryRun : Bool) (rules : List Rule) (ignorePaths : List String)
    (fs : FS) : List String → FS × List Event
  | [] => (fs, [])
  | c :: cs =>
    if c ∈ ignorePaths then mainLoop env dryRun rules ignorePaths fs cs
    else
      let step := processPath env dryRun rules fs c
      let rest := mainLoop env dryRun rules ignorePaths step.1 cs
      (rest.1, step.2 ++ rest.2)

/-- The candidates that survive the ignore filter. -/
def notIgnored (ignorePaths : List String) (cs : List String) : List String :=
  cs.filter (fun c => ¬ c ∈ ignorePaths)

/-- The effective ignore set of a run: os.path.abspath of the target root,
plus every rule's ignore paths. -/
def effectiveIgnorePaths (cwd rootArg : String) (rules : List Rule) : List String :=
  abspath cwd rootArg :: rules.flatMap Rule.ignorePaths

/-! ## Traversal (find_paths)

A directory tree: each directory holds an ordered entry list (the order
stands for the os.scandir enumeration order underlying os.walk).  Symlinks
are not modelled, so the follow_symlinks toggle has no observable effect and
is omitted. -/

mutual
inductive FTree where
  | node : FEntries → FTree
inductive FEntries where
  | nil : FEntries
  | dir : String → FTree → FEntries → FEntries
  | file : String → FEntries → FEntries
end

def dirNames : FEntries → List String
  | .nil => []
  | .dir n _ rest => n :: dirNames rest
  | .file _ rest => dirNames rest

def fileNames : FEntries → List String
  | .nil => []
  | .dir _ _ rest => fileNames rest
  | .file n rest => n :: fileNames rest

/- os.walk(top), top-down: the triple for top first, then the triples of each
subdirectory in order, each walked from os.path.join of the parent root and
the directory name. -/
mutual
def walk (top : String) : FTree → List (String × List String × List String)
  | .node es => (top, dirNames es, fileNames es) :: walkEntries top es
def walkEntries (top : String) : FEntries → List (String × List String × List String)
  | .nil => []
  | .dir n sub rest => walk (pjoin top n) sub ++ walkEntries top rest
  | .file _ rest => walkEntries top rest
end

/-- find_paths: for every walked triple, yield os.path.join of the walk root
with, in order, each subdirectory name, each file name, and the walk root
itself, keeping the paths satisfying the predicate; when recursive is false
the loop breaks after the first triple. -/
def findPaths (pred : String → Bool) (recursive : Bool) (p : String) (t : FTree) :
    List String :=
  let trips := if recursive then walk p t else (walk p t).take 1
  trips.flatMap (fun trip => ((trip.2.1 ++ trip.2.2 ++ [trip.1]).map (pjoin trip.1)).filter pred)

/-! ## Factory (make_condition / make_actions / make_rule / load_rules)

Generic parsed declaration data, as YAML deserialization hands it to the
factory: scalars (string, integer, boolean), sequences and string-keyed
mappings with insertion order.  The YAML null scalar is not modelled; no
claim involves it.  The mutually inductive list and mapping spines keep every
factory function structurally recursive, hence kernel-computable. -/

mutual
inductive Data where
  | str : String → Data
  | int : Int → Data
  | bool : Bool → Data
  | list : DataList → Data
  | dict : DataDict → Data
inductive DataList where
  | nil : DataList
  | cons : Data → DataList → DataList
inductive DataDict where
  | nil : DataDict
  | cons : String → Data → DataDict → DataDict
end

/-- Python truthiness of a declaration value (used for the ignore_case flag). -/
def Data.truthy : Data → Bool
  | .str s => ¬ s = ""
  | .int n => ¬ n = 0
  | .bool b => b
  | .list l => match l with | .nil => false | _ => true
  | .dict d => match d with | .nil => false | _ => true

def DataDict.lookup : DataDict → String → Option Data
  | .nil, _ => none
  | .cons k v rest, key => if k = key then some v else rest.lookup key

/-- True when every key of the mapping is among the allowed names. -/
def DataDict.keysAmong : DataDict → List String → Bool
  | .nil, _ => true
  | .cons k _ rest, allowed => k ∈ allowed && rest.keysAmong allowed

/-- The failure modes of rule construction.  Unknown condition and action
tags raise the dedicated ConditionError and ActionError naming the offending
tag; the remaining constructors stand for the TypeError, IndexError, KeyError
and ValueError escapes of the same code. -/
inductive MakeError where
  | conditionError : Data → MakeError
  | actionError : Data → MakeError
  | bindError : String → MakeError
  | indexError : MakeError
  | keyError : MakeError
  | parseError : String → MakeError

inductive CondTag where
  | allT | anyT | notT | pathT | mimeT | ageT | sizeT
deriving DecidableEq, Repr

/-- The CONDITIONS registry dictionary (tag to constructor). -/
def conditionsTable (s : String) : Option CondTag :=
  if s = "all" then some .allT
  else if s = "any" then some .anyT
  else if s = "not" then some .notT
  else if s = "path" then some .pathT
  else if s = "mime" then some .mimeT
  else if s = "age" then some .ageT
  else if s = "size" then some .sizeT
  else none

inductive ActTag where
  | moveT | copyT | deleteT
deriving DecidableEq, Repr

/-- The ACTIONS registry dictionary. -/
def actionsTable (s : String) : Option ActTag :=
  if s = "move" then some .moveT
  else if s = "copy" then some .copyT
  else if s = "delete" then some .deleteT
  else none

/-- Constructing a condition from a bare tag (no arguments): only the
variadic composites accept an empty argument tuple; every leaf constructor
is missing a required parameter. -/
def bindCondNoArgs : CondTag → Except MakeError Condition
  | .allT => .ok (.all [])
  | .anyT => .ok (.anyc [])
  | .notT => .error (.bindError "not: missing argument")
  | .pathT => .error (.bindError "path: missing argument")
  | .mimeT => .error (.bindError "mime: missing argument")
  | .ageT => .error (.bindError "age: missing argument")
  | .sizeT => .error (.bindError "size: missing argument")

def parseSizeToCondition (s : String) : Except MakeError Condition :=
  match parseSizeCondition s with
  | some (cmp, n) => .ok (.sizec cmp n)
  | none => .error (.parseError s)

def parseAgeToCondition (s : String) : Except MakeError Condition :=
  match parseAgeCondition s with
  | some (cmp, d) => .ok (.agec cmp d)
  | none => .error (.parseError s)

/-- Keyword-argument binding for MimeCondition(regex, ignore_case=True,
magic_bytes=1024).  A non-integer magic_bytes is rejected here although
Python would only fail when the read happens; no claim exercises that
corner. -/
def bindMimeKwargs (kvs : DataDict) : Except MakeError Condition :=
  if kvs.keysAmong ["regex", "ignore_case", "magic_bytes"] then
    match kvs.lookup "regex" with
    | some (.str s) =>
      let ic := match kvs.lookup "ignore_case" with
        | some v => v.truthy
        | none => true
      match kvs.lookup "magic_bytes" with
      | some (.int mb) => .ok (.mimec s ic mb)
      | some _ => .error (.bindError "mime: magic_bytes must be an integer")
      | none => .ok (.mimec s ic 1024)
    | some _ => .error (.bindError "mime: regex must be a string")
    | none => .error (.bindError "mime: missing regex")
  else .error (.bindError "mime: unexpected keyword argument")

/-- make_condition on a scalar argument position.  Only the scalar
constructors can reach this helper (sequence and mapping arguments are
dispatched before it); on those it agrees with make_condition below without
being recursive. -/
def mkConditionScalar : Data → Except MakeError Condition
  | .str s =>
    match conditionsTable s with
    | none => .error (.conditionError (.str s))
    | some t => bindCondNoArgs t
  | .int n => .error (.conditionError (.int n))
  | .bool b => .error (.conditionError (.bool b))
  | d => .error (.conditionError d)

/- make_condition: a mapping node binds its first key-value pair as tag and
arguments (list(data.items())[0], an IndexError on an empty mapping); any
other node is the tag itself with an empty argument tuple.  The tag is looked
up in CONDITIONS first (an unknown tag is a ConditionError naming it); the
arguments then bind as keyword arguments (mapping), positional arguments
(sequence) or a single positional argument (scalar).  The composites recurse
through the same factory.  A sequence node is an unhashable dictionary key in
Python, a TypeError. -/
mutual
def mkCondition : Data → Except MakeError Condition
  | .dict .nil => .error .indexError
  | .dict (.cons tag args _) =>
    match conditionsTable tag with
    | none => .error (.conditionError (.str tag))
    | some t => bindCond t args
  | .str s =>
    match conditionsTable s with
    | none => .error (.conditionError (.str s))
    | some t => bindCondNoArgs t
  | .int n => .error (.conditionError (.int n))
  | .bool b => .error (.conditionError (.bool b))
  | .list _ => .error (.bindError "unhashable type used as a registry key")
def bindCond : CondTag → Data → Except MakeError Condition
  | .allT, .list xs => (mkConditions xs).map (fun cs => .all cs)
  | .allT, .dict .nil => .ok (.all [])
  | .allT, .dict _ => .error (.bindError "all: unexpected keyword argument")
  | .allT, v => (mkConditionScalar v).map (fun c => .all [c])
  | .anyT, .list xs => (mkConditions xs).map (fun cs => .anyc cs)
  | .anyT, .dict .nil => .ok (.anyc [])
  | .anyT, .dict _ => .error (.bindError "any: unexpected keyword argument")
  | .anyT, v => (mkConditionScalar v).map (fun c => .anyc [c])
  | .notT, .list (.cons v .nil) => (mkCondition v).map Condition.notc
  | .notT, .list _ => .error (.bindError "not: expects exactly one positional argument")
  | .notT, .dict (.cons "condition_datum" v .nil) => (mkCondition v).map Condition.notc
  | .notT, .dict _ => .error (.bindError "not: bad keyword arguments")
  | .notT, v => (mkConditionScalar v).map Condition.notc
  | .pathT, .str s => .ok (.pathc s)
  | .pathT, .list (.cons (.str s) .nil) => .ok (.pathc s)
  | .pathT, .dict (.cons "regex" (.str s) .nil) => .ok (.pathc s)
  | .pathT, _ => .error (.bindError "path: bad arguments")
  | .mimeT, .str s => .ok (.mimec s true 1024)
  | .mimeT, .list (.cons (.str s) .nil) => .ok (.mimec s true 1024)
  | .mimeT, .list (.cons (.str s) (.cons ic .nil)) => .ok (.mimec s ic.truthy 1024)
  | .mimeT, .list (.cons (.str s) (.cons ic (.cons (.int mb) .nil))) =>
    .ok (.mimec s ic.truthy mb)
  | .mimeT, .dict kvs => bindMimeKwargs kvs
  | .mimeT, _ => .error (.bindError "mime: bad arguments")
  | .ageT, .str s => parseAgeToCondition s
  | .ageT, .list (.cons (.str s) .nil) => parseAgeToCondition s
  | .ageT, .dict (.cons "condition_string" (.str s) .nil) => parseAgeToCondition s
  | .ageT, _ => .error (.bindError "age: bad arguments")
  | .sizeT, .str s => parseSizeToCondition s
  | .sizeT, .list (.cons (.str s) .nil) => parseSizeToCondition s
  | .sizeT, .dict (.cons "size" (.str s) .nil) => parseSizeToCondition s
  | .sizeT, _ => .error (.bindError "size: bad arguments")
def mkConditions : DataList → Except MakeError (List Condition)
  | .nil => .ok []
  | .cons d rest => do
    let c ← mkCondition d
    let cs ← mkConditions rest
    .ok (c :: cs)
end

/-- Argument binding for the action constructors: MoveAction(destination) and
CopyAction(destination) expand the user directory in their destination;
DeleteAction takes no argument. -/
def bindAct (home : String) : ActTag → Data → Except MakeError Action
  | .moveT, .str s => .ok (.move (expanduser home s))
  | .moveT, .list (.cons (.str s) .nil) => .ok (.move (expanduser home s))
  | .moveT, .dict (.cons "destination" (.str s) .nil) => .ok (.move (expanduser home s))
  | .moveT, _ => .error (.bindError "move: bad arguments")
  | .copyT, .str s => .ok (.copy (expanduser home s))
  | .copyT, .list (.cons (.str s) .nil) => .ok (.copy (expanduser home s))
  | .copyT, .dict (.cons "destination" (.str s) .nil) => .ok (.copy (expanduser home s))
  | .copyT, _ => .error (.bindError "copy: bad arguments")
  | .deleteT, .list .nil => .ok .delete
  | .deleteT, .dict .nil => .ok .delete
  | .deleteT, _ => .error (.bindError "delete: takes no arguments")

/-- One iteration of the make_actions loop: same node shape as
make_condition, against the ACTIONS registry (an unknown tag is an
ActionError naming it). -/
def mkAction (home : String) (d : Data) : Except MakeError Action :=
  match d with
  | .dict .nil => .error .indexError
  | .dict (.cons tag args _) =>
    match actionsTable tag with
    | none => .error (.actionError (.str tag))
    | some t => bindAct home t args
  | .str s =>
    match actionsTable s with
    | none => .error (.actionError (.str s))
    | some t => bindAct home t (.list .nil)
  | .int n => .error (.actionError (.int n))
  | .bool b => .error (.actionError (.bool b))
  | .list _ => .error (.bindError "unhashable type used as a registry key")

/-- make_actions over the declared action sequence, in order. -/
def mkActions (home : String) : DataList → Except MakeError (List Action)
  | .nil => .ok []
  | .cons d rest => do
    let a ← mkAction home d
    let as ← mkActions home rest
    .ok (a :: as)

/-- The keys of a mapping as string scalars (iterating a Python dict yields
its keys, the shape make_actions would see if the actions value were a
mapping). -/
def DataDict.keysData : DataDict → DataList
  | .nil => .nil
  | .cons k _ rest => .cons (.str k) rest.keysData

/-- make_rule: the first key-value pair of the declaration is the rule name
and body; the condition is built from the body's condition entry, then the
actions from its actions entry (missing entries are KeyErrors, in that
order). -/
def mkRule (home : String) (d : Data) : Except MakeError Rule :=
  match d with
  | .dict .nil => .error .indexError
  | .dict (.cons name body _) =>
    match body with
    | .dict kvs =>
      match kvs.lookup "condition" with
      | none => .error .keyError
      | some cd => do
        let c ← mkCondition cd
        match kvs.lookup "actions" with
        | none => .error .keyError
        | some ad => do
          let as ← (match ad with
            | .list ds => mkActions home ds
            | .dict kvs2 => mkActions home kvs2.keysData
            | _ => .error (.bindError "actions value is not iterable"))
          .ok ⟨name, c, as⟩
    | _ => .error (.bindError "rule body is not a mapping")
  | _ => .error (.bindError "rule declaration is not a mapping")

/-- load_rules: build every rule, in declaration order, before anything else
happens. -/
def loadRules (home : String) : List Data → Except MakeError (List Rule)
  | [] => .ok []
  | d :: ds => do
    let r ← mkRule home d
    let rs ← loadRules home ds
    .ok (r :: rs)

/-- main, after its two existence checks: build all rules from the
declarations; on success enumerate the candidates, form the effective ignore
set, and run the matching loop.  A rule-construction error propagates with
the filesystem untouched, since construction completes before traversal
starts.  The candidate list is computed from the initial tree: the laziness
of the find_paths generator under concurrent mutation is not modelled, and
every claim below quantifies over the candidate list or a single path. -/
def mainRun (env : Env) (cwd home : String) (dryRun recursive : Bool)
    (ruleData : List Data) (rootArg : String) (tree : FTree) (fs : FS) :
    Except MakeError (List Event) × FS :=
  match loadRules home ruleData with
  | .error e => (.error e, fs)
  | .ok rules =>
    let candidates := findPaths (fun _ => true) recursive rootArg tree
    let ignore := effectiveIgnorePaths cwd rootArg rules
    let res := mainLoop env dryRun rules ignore fs candidates
    (.ok res.2, res.1)

/-! ## Concrete objects used by witnesses and counterexamples -/

/-- A trivial environment: no regular expression matches, clock at zero. -/
def envTriv : Env := ⟨fun _ _ _ => false, 0⟩

/-- A condition with no children matches everything (AllCondition() is
vacuously true), independently of the environment. -/
def ruleA : Rule := ⟨"rA", .all [], [.delete]⟩

def ruleB : Rule := ⟨"rB", .all [], [.delete]⟩

/-- A rule whose only action moves into /dest. -/
def ruleMove : Rule := ⟨"rM", .all [], [.move "/dest"]⟩

def fsOneFile : FS := ⟨[("/t/x", ⟨true, 5, 0, "text/plain"⟩)]⟩

/-! ## Helper lemmas -/

/-- The generator-expression filter of main: the loop that tests membership
per element equals the plain loop over the filtered candidate list. -/
theorem mainLoop_eq_processCandidates (env : Env) (dryRun : Bool) (rules : List Rule)
    (ign : List String) (fs : FS) (cs : List String) :
    mainLoop env dryRun rules ign fs cs =
      processCandidates env dryRun rules fs (notIgnored ign cs) := by
  induction cs generalizing fs with
  | nil => rfl
  | cons c cs ih =>
    by_cases h : c ∈ ign
    · have e1 : notIgnored ign (c :: cs) = notIgnored ign cs := by
        simp [notIgnored, List.filter_cons, h]
      rw [e1, ← ih fs]
      simp only [mainLoop, if_pos h]
    · have e1 : notIgnored ign (c :: cs) = c :: notIgnored ign cs := by
        simp [notIgnored, List.filter_cons, h]
      rw [e1]
      simp only [mainLoop, if_neg h, processCandidates]
      rw [ih]

/-- In dry-run mode the inner rule loop never touches the filesystem. -/
theorem processPath_dryRun_fst (env : Env) (rules : List Rule) (fs : FS) (p : String) :
    (processPath env true rules fs p).1 = fs := by
  induction rules with
  | nil => rfl
  | cons r rest ih =>
    by_cases h : Rule.matches env fs r p <;> simp [processPath, h, ih]

/-- A lookup misses when no key equals the target. -/
theorem lookup_none_of_keys_ne (l : List (String × EntryStat)) (p : String)
    (h : ∀ e ∈ l, ¬ e.1 = p) : l.lookup p = none := by
  induction l with
  | nil => rfl
  | cons e es ih =>
    have h1 : ¬ e.1 = p := h e (List.mem_cons_self e es)
    have h2 : ∀ x ∈ es, ¬ x.1 = p := fun x hx => h x (List.mem_cons_of_mem e hx)
    cases e with
    | mk k v =>
      simp only [List.lookup]
      have hb : (p == k) = false := beq_false_of_ne (fun hh => h1 hh.symm)
      rw [hb]
      exact ih h2

/-- os.remove leaves no entry at the removed path. -/
theorem FS.remove_stat_self (fs : FS) (p : String) : (fs.remove p).stat? p = none := by
  apply lookup_none_of_keys_ne
  intro e he
  have := List.of_mem_filter he
  simpa using this

/-- Lookup distributes over list append: the left list is consulted first. -/
theorem lookup_append (l1 l2 : List (String × EntryStat)) (p : String) :
    (l1 ++ l2).lookup p =
      match l1.lookup p with
      | some v => some v
      | none => l2.lookup p := by
  induction l1 with
  | nil => rfl
  | cons e es ih =>
    cases e with
    | mk k v =>
      simp only [List.cons_append, List.lookup]
      cases hpk : (p == k)
      · exact ih
      · rfl

/-- os.makedirs never disturbs an existing entry. -/
theorem FS.makedirs_stat_of_some (fs : FS) (d p : String) (st : EntryStat)
    (h : fs.stat? p = some st) : (fs.makedirs d).stat? p = some st := by
  unfold FS.makedirs
  rcases hd : fs.stat? d with _ | v
  · show FS.stat? ⟨fs.entries ++ [(d, dirStat)]⟩ p = some st
    unfold FS.stat? at h ⊢
    rw [lookup_append, h]
  · exact h

/-- After moving an existing entry from p to np and then removing np, neither
path carries an entry. -/
theorem moveFile_remove_stat (fs : FS) (p np : String) (st : EntryStat)
    (h : fs.stat? p = some st) :
    ((fs.moveFile p np).remove np).stat? np = none ∧
    ((fs.moveFile p np).remove np).stat? p = none := by
  refine ⟨FS.remove_stat_self _ _, ?_⟩
  by_cases hpe : p = np
  · rw [hpe]
    exact FS.remove_stat_self _ _
  · apply lookup_none_of_keys_ne
    intro e he
    have he1 := List.mem_of_mem_filter he
    unfold FS.moveFile at he1
    rw [h] at he1
    rcases List.mem_append.mp he1 with hin | hin
    · have h2 := List.mem_of_mem_filter hin
      simp only [FS.remove] at h2
      have h3 := List.of_mem_filter h2
      simpa using h3
    · have : e = (np, st) := by simpa using hin
      rw [this]
      simpa using Ne.symm hpe

/-! ## C1 -/

/-- C1: in non-dry-run mode the rules are consulted in declaration order and
the first whose condition matches is the only one applied: the per-path loop
produces exactly one applied event, for the first matching rule (none when no
rule matches), the resulting filesystem is that rule's action chain applied
to the path, and rules after the first match are never reached.  The outer
loop runs this exact per-path computation on every candidate surviving the
ignore filter. -/
theorem first_match_is_only_rule_applied (env : Env) (rules : List Rule) (fs : FS)
    (p : String) :
    (processPath env false rules fs p =
      match rules.find? (fun r => Rule.matches env fs r p) with
      | some r => ((Rule.applyChain fs p r.actions).1, [Event.applied r.name p])
      | none => (fs, [])) ∧
    (∀ ign cs, mainLoop env false rules ign fs cs =
      processCandidates env false rules fs (notIgnored ign cs)) := by
  constructor
  · induction rules with
    | nil => rfl
    | cons r rest ih =>
      by_cases h : Rule.matches env fs r p
      · simp [processPath, h, List.find?_cons]
      · simp [processPath, h, List.find?_cons, ih]
  · intro ign cs
    exact mainLoop_eq_processCandidates env false rules ign fs cs

/-! ## C2 (corrected) -/

/-- C2 counterexample: with two rules whose conditions both match (conditions
with no children match everything), a dry run reports BOTH rules for the one
candidate path: the inner loop continues past the first match (the dry-run
branch ends in continue, not break), so more than one rule is reported for a
single candidate path, contradicting the claim that the loop stops at the
first matching rule. -/
theorem dry_run_reports_every_matching_rule_cex :
    (processPath envTriv true [ruleA, ruleB] fsOneFile "/t/x").2 =
      [Event.reported "rA" "/t/x", Event.reported "rB" "/t/x"] ∧
    ¬ (processPath envTriv true [ruleA, ruleB] fsOneFile "/t/x").2.length ≤ 1 := by
  constructor
  · rfl
  · decide

/-- C2 amended: in dry-run mode no action executes and the filesystem is
never mutated (by the inner loop and by the whole run), and EVERY rule whose
condition matches the candidate path is reported, in declaration order — the
loop does not stop at the first match, so several rules may be reported for
one path. -/
theorem dry_run_reports_all_matches_no_mutation (env : Env) (rules : List Rule)
    (fs : FS) (p : String) :
    ((processPath env true rules fs p).1 = fs) ∧
    ((processPath env true rules fs p).2 =
      (rules.filter (fun r => Rule.matches env fs r p)).map
        (fun r => Event.reported r.name p)) ∧
    (∀ ign cs, (mainLoop env true rules ign fs cs).1 = fs) := by
  refine ⟨processPath_dryRun_fst env rules fs p, ?_, ?_⟩
  · induction rules with
    | nil => rfl
    | cons r rest ih =>
      by_cases h : Rule.matches env fs r p <;>
        simp [processPath, h, List.filter_cons, ih]
  · intro ign cs
    induction cs generalizing fs with
    | nil => rfl
    | cons c cs ih =>
      by_cases h : c ∈ ign
      · simpa [mainLoop, h] using ih fs
      · simpa [mainLoop, h, processPath_dryRun_fst] using ih (processPath env true rules fs c).1

/-! ## C3 -/

/-- C3: the action chain threads the candidate path: a Move hands the path of
the relocated file to the rest of the chain, while Copy and Delete hand the
carried path on unchanged; consequently a Move followed by a Delete removes
the moved file — after running the two-action chain on an existing file,
neither the moved path nor the original carries an entry (the Delete acted on
the moved path; had it acted on the original, the moved file would
survive). -/
theorem action_chain_threads_paths (fs : FS) (p d : String) (rest : List Action)
    (hnp : ¬ pjoin d (basename p) = "") :
    (Rule.applyChain fs p (Action.move d :: rest) =
      Rule.applyChain ((fs.makedirs d).moveFile p (pjoin d (basename p)))
        (pjoin d (basename p)) rest) ∧
    (∀ fs2 p2 d2 rest2, Rule.applyChain fs2 p2 (Action.copy d2 :: rest2) =
      Rule.applyChain ((fs2.makedirs d2).copyFile p2 (pjoin d2 (basename p2))) p2 rest2) ∧
    (∀ fs2 p2 rest2, Rule.applyChain fs2 p2 (Action.delete :: rest2) =
      Rule.applyChain (fs2.remove p2) p2 rest2) ∧
    ((Rule.applyChain fs p [Action.move d, Action.delete]).1.stat?
        (pjoin d (basename p)) = none ∧
     ∀ st, fs.stat? p = some st →
       (Rule.applyChain fs p [Action.move d, Action.delete]).1.stat? p = none) := by
  have hchain : Rule.applyChain fs p (Action.move d :: [Action.delete]) =
      Rule.applyChain ((fs.makedirs d).moveFile p (pjoin d (basename p)))
        (pjoin d (basename p)) [Action.delete] := by
    simp only [Rule.applyChain, Action.apply]
    rw [if_neg hnp]
  refine ⟨?_, fun _ _ _ _ => rfl, fun _ _ _ => rfl, ?_, ?_⟩
  · simp only [Rule.applyChain, Action.apply]
    rw [if_neg hnp]
  · rw [hchain]
    exact FS.remove_stat_self _ _
  · intro st hst
    rw [hchain]
    exact (moveFile_remove_stat (fs.makedirs d) p (pjoin d (basename p)) st
      (FS.makedirs_stat_of_some fs d p st hst)).2

/-- C3 witness: a concrete file moved to /dest and then deleted; the
hypotheses of the chaining theorem hold and neither the moved path /dest/x
nor the original /t/x remains. -/
theorem action_chain_threads_paths_witness :
    (¬ pjoin "/dest" (basename "/t/x") = "") ∧
    fsOneFile.stat? "/t/x" = some ⟨true, 5, 0, "text/plain"⟩ ∧
    (Rule.applyChain fsOneFile "/t/x" [Action.move "/dest", Action.delete]).1.stat?
      (pjoin "/dest" (basename "/t/x")) = none ∧
    (Rule.applyChain fsOneFile "/t/x" [Action.move "/dest", Action.delete]).1.stat?
      "/t/x" = none := by
  have h := action_chain_threads_paths fsOneFile "/t/x" "/dest" [] (by decide)
  exact ⟨by decide, rfl, h.2.2.2.1, h.2.2.2.2 ⟨true, 5, 0, "text/plain"⟩ rfl⟩

/-! ## C4 (corrected) -/

/-- A declaration for ruleA: name rA, a match-everything condition, one
delete action. -/
def declA : Data :=
  .dict (.cons "rA"
    (.dict (.cons "condition" (.str "all")
      (.cons "actions" (.list (.cons (.str "delete") .nil)) .nil)))
    .nil)

/-- C4 counterexample: run on the target root written with a trailing slash.
The ignore set holds os.path.abspath of the root, the string without the
slash, while the walk yields the root candidate with the slash; the equality
test fails, so the candidate equal to the target-root argument IS evaluated
against the rules (here: reported by rule rA in a dry run), contradicting the
claim for paths equal to the target root. -/
theorem root_candidate_evaluated_cex :
    (mainRun envTriv "/c" "/h" true true [declA] "/t/" (FTree.node .nil) ⟨[]⟩).1 =
      .ok [Event.reported "rA" "/t/"] ∧
    effectiveIgnorePaths "/c" "/t/" [ruleA] = ["/t"] ∧
    "/t/" ∈ notIgnored (effectiveIgnorePaths "/c" "/t/" [ruleA])
      (findPaths (fun _ => true) true "/t/" (FTree.node .nil)) := by
  refine ⟨rfl, rfl, ?_⟩
  decide

/-- C4 amended: a candidate path equal to any rule action's stored
destination directory, or equal to os.path.abspath of the target root (the
raw target-root argument itself need not be covered, as the counterexample
shows), is a member of the effective ignore set — which is exactly the
absolute root path together with every rule's ignore paths — and is filtered
out of the candidate stream before any rule is consulted. -/
theorem ignore_set_members_never_evaluated (cwd rootArg : String) (rules : List Rule)
    (cs : List String) (p : String)
    (hp : p = abspath cwd rootArg ∨ ∃ r ∈ rules, ∃ a ∈ r.actions, p ∈ a.ignorePaths) :
    p ∈ effectiveIgnorePaths cwd rootArg rules ∧
    p ∉ notIgnored (effectiveIgnorePaths cwd rootArg rules) cs ∧
    (∀ env dryRun fs,
      mainLoop env dryRun rules (effectiveIgnorePaths cwd rootArg rules) fs cs =
        processCandidates env dryRun rules fs
          (notIgnored (effectiveIgnorePaths cwd rootArg rules) cs)) := by
  have h1 : p ∈ effectiveIgnorePaths cwd rootArg rules := by
    rcases hp with h | ⟨r, hr, a, ha, hpa⟩
    · rw [h]
      exact List.mem_cons_self _ _
    · apply List.mem_cons_of_mem
      rw [List.mem_flatMap]
      refine ⟨r, hr, ?_⟩
      show p ∈ r.actions.flatMap Action.ignorePaths
      rw [List.mem_flatMap]
      exact ⟨a, ha, hpa⟩
  refine ⟨h1, ?_, ?_⟩
  · intro hmem
    have := (List.mem_filter.mp hmem).2
    simp at this
    exact this h1
  · intro env dryRun fs
    exact mainLoop_eq_processCandidates env dryRun rules _ fs cs

/-- C4 witness: the destination of the move action of ruleMove is ignored
and never enters the evaluated candidate list. -/
theorem ignore_set_members_never_evaluated_witness :
    ("/dest" = abspath "/c" "rel" ∨
      ∃ r ∈ [ruleMove], ∃ a ∈ r.actions, "/dest" ∈ a.ignorePaths) ∧
    "/dest" ∉ notIgnored (effectiveIgnorePaths "/c" "rel" [ruleMove])
      ["/dest", "/c/rel/x"] := by
  have hp : "/dest" = abspath "/c" "rel" ∨
      ∃ r ∈ [ruleMove], ∃ a ∈ r.actions, "/dest" ∈ a.ignorePaths :=
    Or.inr ⟨ruleMove, List.mem_singleton.mpr rfl, Action.move "/dest",
      by simp [ruleMove], by simp [Action.ignorePaths]⟩
  exact ⟨hp,
    (ignore_set_members_never_evaluated "/c" "rel" [ruleMove]
      ["/dest", "/c/rel/x"] "/dest" hp).2.1⟩

/-! ## C5 -/

/-- C5: the size unit table binds exactly as the source writes it — the plain
suffixes to powers of 1024 and the -ib suffixes to powers of 1000 — with the
unit token lower-cased before lookup; the condition string greater-than one
kb parses to a 1024-byte threshold and greater-than one kib to a 1000-byte
threshold, and evaluating the resulting conditions on a file compares its
byte length with 1024 and 1000 respectively. -/
theorem size_unit_table_binding (env : Env) (fs : FS) (p : String) (st : EntryStat) :
    (sizeUnits "b" = some 1 ∧ sizeUnits "kb" = some 1024 ∧
     sizeUnits "mb" = some (1024 ^ 2) ∧ sizeUnits "gb" = some (1024 ^ 3) ∧
     sizeUnits "tb" = some (1024 ^ 4) ∧ sizeUnits "kib" = some 1000 ∧
     sizeUnits "mib" = some (1000 ^ 2) ∧ sizeUnits "gib" = some (1000 ^ 3) ∧
     sizeUnits "tib" = some (1000 ^ 4)) ∧
    (parseSizeCondition "> 1 kb" = some (Cmp.gt, 1024) ∧
     parseSizeCondition "> 1 KB" = some (Cmp.gt, 1024) ∧
     parseSizeCondition "> 1 kib" = some (Cmp.gt, 1000) ∧
     parseSizeCondition "> 1 KiB" = some (Cmp.gt, 1000)) ∧
    (mkCondition (.dict (.cons "size" (.str "> 1 kb") .nil)) =
       .ok (.sizec Cmp.gt 1024) ∧
     mkCondition (.dict (.cons "size" (.str "> 1 kib") .nil)) =
       .ok (.sizec Cmp.gt 1000)) ∧
    (fs.stat? p = some st →
      Condition.eval env fs (.sizec Cmp.gt 1024) p = decide ((st.size : Int) > 1024) ∧
      Condition.eval env fs (.sizec Cmp.gt 1000) p = decide ((st.size : Int) > 1000)) := by
  refine ⟨by decide, by decide, ⟨rfl, rfl⟩, ?_⟩
  intro hst
  constructor <;> simp [Condition.eval, hst, Cmp.holds]

def stBig : EntryStat := ⟨true, 2000, 0, "application/octet-stream"⟩

def fsBig : FS := ⟨[("/t/big", stBig)]⟩

/-- C5 witness: a 2000-byte file satisfies the greater-than one kb condition
(2000 is above 1024), evaluated through the theorem at a concrete
filesystem. -/
theorem size_unit_table_binding_witness :
    fsBig.stat? "/t/big" = some stBig ∧
    Condition.eval envTriv fsBig (.sizec Cmp.gt 1024) "/t/big" =
      decide ((stBig.size : Int) > 1024) := by
  exact ⟨rfl, ((size_unit_table_binding envTriv fsBig "/t/big" stBig).2.2.2 rfl).1⟩

/-! ## C6 (corrected) -/

/-- C6 counterexample: with a relative starting directory the walk root is
relative, and os.path.join of the root with itself prepends the root again:
find_paths on directory d containing one file yields d/f and d/d, and the
directory d itself is never yielded, contradicting the claim for relative
starting directories. -/
theorem relative_root_not_yielded_cex :
    findPaths (fun _ => true) true "d" (FTree.node (FEntries.file "f" FEntries.nil)) =
      ["d/f", "d/d"] ∧
    ¬ "d" ∈ findPaths (fun _ => true) true "d"
      (FTree.node (FEntries.file "f" FEntries.nil)) := by
  constructor
  · rfl
  · decide

/-- When the first string is absolute so is the concatenation. -/
theorem strStarts_append (a b : String) (h : strStarts a '/' = true) :
    strStarts (a ++ b) '/' = true := by
  unfold strStarts at h ⊢
  rw [String.data_append]
  rcases ha : a.data with _ | ⟨c, rest⟩
  · rw [ha] at h
    simp at h
  · rw [ha] at h
    simp at h
    simp [h]

/-- os.path.join of an absolute path with anything is absolute. -/
theorem pjoin_abs (a b : String) (h : strStarts a '/' = true) :
    strStarts (pjoin a b) '/' = true := by
  unfold pjoin
  by_cases hb : strStarts b '/' = true
  · rw [if_pos hb]
    exact hb
  · rw [if_neg hb]
    by_cases hae : a = "" ∨ strEnds a '/' = true
    · rw [if_pos hae]
      exact strStarts_append a b h
    · rw [if_neg hae]
      rw [String.append_assoc]
      exact strStarts_append a ("/" ++ b) h

/-- os.path.join of an absolute path with itself is itself (the second
component being absolute replaces the first). -/
theorem pjoin_self (p : String) (h : strStarts p '/' = true) : pjoin p p = p := by
  unfold pjoin
  rw [if_pos h]

/- Every root of a walk rooted at an absolute path is absolute. -/
mutual
theorem walk_roots_abs (top : String) (t : FTree) (h : strStarts top '/' = true) :
    ∀ trip ∈ walk top t, strStarts trip.1 '/' = true := by
  match t with
  | .node es =>
    intro trip htrip
    rw [walk] at htrip
    rcases List.mem_cons.mp htrip with heq | hmem
    · rw [heq]
      exact h
    · exact walkEntries_roots_abs top es h trip hmem
theorem walkEntries_roots_abs (top : String) (es : FEntries)
    (h : strStarts top '/' = true) :
    ∀ trip ∈ walkEntries top es, strStarts trip.1 '/' = true := by
  match es with
  | .nil =>
    intro trip htrip
    rw [walkEntries] at htrip
    exact absurd htrip (List.not_mem_nil trip)
  | .dir n sub rest =>
    intro trip htrip
    rw [walkEntries] at htrip
    rcases List.mem_append.mp htrip with hmem | hmem
    · exact walk_roots_abs (pjoin top n) sub (pjoin_abs top n h) trip hmem
    · exact walkEntries_roots_abs top rest h trip hmem
  | .file n rest =>
    intro trip htrip
    rw [walkEntries] at htrip
    exact walkEntries_roots_abs top rest h trip htrip
end

/-- C6 amended: for an ABSOLUTE starting directory the enumerator yields, for
every directory the walk visits, each immediate subdirectory path, each
immediate file path, and the directory itself (the root included); for a
relative starting directory the per-directory self entry is os.path.join of
the walk root with itself — a different string — instead of the directory
(see the counterexample).  With recursive false, the yields are exactly the
root level: the root's immediate children followed by the root, and nothing
deeper. -/
theorem absolute_root_traversal_yields (p : String) (t : FTree)
    (hp : strStarts p '/' = true) :
    (∀ trip ∈ walk p t,
        trip.1 ∈ findPaths (fun _ => true) true p t ∧
        (∀ n ∈ trip.2.1, pjoin trip.1 n ∈ findPaths (fun _ => true) true p t) ∧
        (∀ n ∈ trip.2.2, pjoin trip.1 n ∈ findPaths (fun _ => true) true p t)) ∧
    (∀ es, t = FTree.node es →
        findPaths (fun _ => true) false p t =
          (dirNames es).map (pjoin p) ++ (fileNames es).map (pjoin p) ++ [p]) := by
  constructor
  · intro trip htrip
    have habs : strStarts trip.1 '/' = true := walk_roots_abs p t hp trip htrip
    refine ⟨?_, ?_, ?_⟩
    · apply List.mem_flatMap.mpr
      refine ⟨trip, htrip, ?_⟩
      simp only [List.filter_true]
      apply List.mem_map.mpr
      exact ⟨trip.1, by simp, pjoin_self trip.1 habs⟩
    · intro n hn
      apply List.mem_flatMap.mpr
      refine ⟨trip, htrip, ?_⟩
      simp only [List.filter_true]
      apply List.mem_map.mpr
      exact ⟨n, by simp [hn], rfl⟩
    · intro n hn
      apply List.mem_flatMap.mpr
      refine ⟨trip, htrip, ?_⟩
      simp only [List.filter_true]
      apply List.mem_map.mpr
      exact ⟨n, by simp [hn], rfl⟩
  · intro es he
    subst he
    show (((dirNames es ++ fileNames es ++ [p]).map (pjoin p)).filter (fun _ => true)) ++ [] =
      (dirNames es).map (pjoin p) ++ (fileNames es).map (pjoin p) ++ [p]
    simp [List.filter_true, List.map_append, pjoin_self p hp]

def esW : FEntries := .dir "s" (.node (.file "g" .nil)) (.file "f" .nil)

def treeW : FTree := .node esW

/-- C6 witness: a concrete absolute root with one file and one subdirectory;
the non-recursive enumeration is exactly the immediate subdirectory, the
immediate file and the root itself. -/
theorem absolute_root_traversal_yields_witness :
    strStarts "/d" '/' = true ∧
    findPaths (fun _ => true) false "/d" treeW =
      (dirNames esW).map (pjoin "/d") ++ (fileNames esW).map (pjoin "/d") ++ ["/d"] := by
  exact ⟨by decide, (absolute_root_traversal_yields "/d" treeW (by decide)).2 esW rfl⟩

/-! ## C7 -/

theorem evalAll_eq_all (env : Env) (fs : FS) (cs : List Condition) (p : String) :
    evalAll env fs cs p = cs.all (fun x => Condition.eval env fs x p) := by
  induction cs with
  | nil => rfl
  | cons c cs ih => simp [evalAll, List.all_cons, ih]

theorem evalAny_eq_any (env : Env) (fs : FS) (cs : List Condition) (p : String) :
    evalAny env fs cs p = cs.any (fun x => Condition.eval env fs x p) := by
  induction cs with
  | nil => rfl
  | cons c cs ih => simp [evalAny, List.any_cons, ih]

theorem evalAllTrace_spec (env : Env) (fs : FS) (cs : List Condition) (p : String) :
    (evalAllTrace env fs cs p).1 = evalAll env fs cs p ∧
    (evalAllTrace env fs cs p).2 =
      min ((cs.takeWhile (fun x => Condition.eval env fs x p)).length + 1) cs.length := by
  induction cs with
  | nil => exact ⟨rfl, rfl⟩
  | cons c cs ih =>
    by_cases h : Condition.eval env fs c p
    · have ht : List.takeWhile (fun x => Condition.eval env fs x p) (c :: cs) =
          c :: List.takeWhile (fun x => Condition.eval env fs x p) cs := by
        simp [List.takeWhile_cons, h]
      have h2 := ih.2
      refine ⟨by simp [evalAllTrace, evalAll, h, ih.1], ?_⟩
      rw [ht]
      have h3 : (evalAllTrace env fs (c :: cs) p).2 =
          (evalAllTrace env fs cs p).2 + 1 := by
        simp [evalAllTrace, h]
      rw [h3, h2, List.length_cons, List.length_cons]
      omega
    · have ht : List.takeWhile (fun x => Condition.eval env fs x p) (c :: cs) = [] := by
        simp [List.takeWhile_cons, h]
      have h3 : evalAllTrace env fs (c :: cs) p = (false, 1) := by
        simp [evalAllTrace, h]
      refine ⟨by simp [h3, evalAll, h], ?_⟩
      rw [ht, h3, List.length_cons]
      simp

theorem evalAnyTrace_spec (env : Env) (fs : FS) (cs : List Condition) (p : String) :
    (evalAnyTrace env fs cs p).1 = evalAny env fs cs p ∧
    (evalAnyTrace env fs cs p).2 =
      min ((cs.takeWhile (fun x => !(Condition.eval env fs x p))).length + 1) cs.length := by
  induction cs with
  | nil => exact ⟨rfl, rfl⟩
  | cons c cs ih =>
    by_cases h : Condition.eval env fs c p
    · have ht : List.takeWhile (fun x => !(Condition.eval env fs x p)) (c :: cs) = [] := by
        simp [List.takeWhile_cons, h]
      have h3 : evalAnyTrace env fs (c :: cs) p = (true, 1) := by
        simp [evalAnyTrace, h]
      refine ⟨by simp [h3, evalAny, h], ?_⟩
      rw [ht, h3, List.length_cons]
      simp
    · have ht : List.takeWhile (fun x => !(Condition.eval env fs x p)) (c :: cs) =
          c :: List.takeWhile (fun x => !(Condition.eval env fs x p)) cs := by
        simp [List.takeWhile_cons, h]
      have h2 := ih.2
      refine ⟨by simp [evalAnyTrace, evalAny, h, ih.1], ?_⟩
      rw [ht]
      have h3 : (evalAnyTrace env fs (c :: cs) p).2 =
          (evalAnyTrace env fs cs p).2 + 1 := by
        simp [evalAnyTrace, h]
      rw [h3, h2, List.length_cons, List.length_cons]
      omega

/-- C7: a composite All matches exactly when every child matches and an Any
exactly when at least one child matches; Not negates its single child.  Both
composites short-circuit: the number of children actually invoked (the
operational trace of the Python all and any generators) is the length of the
run of children up to and including the first determining one — one past the
initial segment of matching children for All (of failing children for Any) —
capped by the child count, so no child after the determining one is ever
invoked. -/
theorem composite_conditions_semantics (env : Env) (fs : FS) (cs : List Condition)
    (c : Condition) (p : String) :
    (Condition.eval env fs (.all cs) p = cs.all (fun x => Condition.eval env fs x p)) ∧
    (Condition.eval env fs (.anyc cs) p = cs.any (fun x => Condition.eval env fs x p)) ∧
    (Condition.eval env fs (.notc c) p = !(Condition.eval env fs c p)) ∧
    ((evalAllTrace env fs cs p).1 = Condition.eval env fs (.all cs) p) ∧
    ((evalAnyTrace env fs cs p).1 = Condition.eval env fs (.anyc cs) p) ∧
    ((evalAllTrace env fs cs p).2 =
      min ((cs.takeWhile (fun x => Condition.eval env fs x p)).length + 1) cs.length) ∧
    ((evalAnyTrace env fs cs p).2 =
      min ((cs.takeWhile (fun x => !(Condition.eval env fs x p))).length + 1) cs.length) := by
  refine ⟨?_, ?_, rfl, ?_, ?_, (evalAllTrace_spec env fs cs p).2,
    (evalAnyTrace_spec env fs cs p).2⟩
  · show evalAll env fs cs p = _
    exact evalAll_eq_all env fs cs p
  · show evalAny env fs cs p = _
    exact evalAny_eq_any env fs cs p
  · show (evalAllTrace env fs cs p).1 = evalAll env fs cs p
    exact (evalAllTrace_spec env fs cs p).1
  · show (evalAnyTrace env fs cs p).1 = evalAny env fs cs p
    exact (evalAnyTrace_spec env fs cs p).1

/-! ## C8 -/

/-- C8: a condition node whose tag is not in the CONDITIONS registry fails
construction with a ConditionError naming the tag; an action node whose tag
is not in the ACTIONS registry fails with an ActionError naming the tag; and
any rule-construction error makes the whole run return that error with the
filesystem exactly as it started and no candidate processed — rule
construction completes before traversal begins. -/
theorem unknown_tag_aborts_before_run (tag : String) (args : Data) (rest : DataDict)
    (home : String) (env : Env) (cwd : String) (dryRun recursive : Bool)
    (decls : List Data) (rootArg : String) (tree : FTree) (fs : FS) (e : MakeError) :
    (conditionsTable tag = none →
      mkCondition (.dict (.cons tag args rest)) = .error (.conditionError (.str tag))) ∧
    (actionsTable tag = none →
      mkAction home (.dict (.cons tag args rest)) = .error (.actionError (.str tag))) ∧
    (loadRules home decls = .error e →
      mainRun env cwd home dryRun recursive decls rootArg tree fs = (.error e, fs)) := by
  refine ⟨?_, ?_, ?_⟩
  · intro h
    simp only [mkCondition]
    rw [h]
  · intro h
    simp only [mkAction]
    rw [h]
  · intro h
    unfold mainRun
    rw [h]

/-- A rule declaration whose condition node carries the unknown tag bogus. -/
def declBogus : Data :=
  .dict (.cons "broken"
    (.dict (.cons "condition" (.dict (.cons "bogus" (.str "x") .nil))
      (.cons "actions" (.list (.cons (.str "delete") .nil)) .nil)))
    .nil)

/-- C8 witness: a well-formed first rule followed by a rule with an unknown
condition tag; loading fails with the ConditionError naming bogus and the
run returns immediately with the filesystem untouched and no events. -/
theorem unknown_tag_aborts_before_run_witness :
    conditionsTable "bogus" = none ∧
    loadRules "/h" [declA, declBogus] = .error (.conditionError (.str "bogus")) ∧
    mainRun envTriv "/c" "/h" false true [declA, declBogus] "/t" (FTree.node .nil)
      fsOneFile = (.error (.conditionError (.str "bogus")), fsOneFile) := by
  refine ⟨by decide, rfl, ?_⟩
  exact (unknown_tag_aborts_before_run "bogus" (.str "x") .nil "/h" envTriv "/c" false
    true [declA, declBogus] "/t" (FTree.node .nil) fsOneFile
    (.conditionError (.str "bogus"))).2.2 rfl

/-! ## C9 -/

/-- C9: on a path that is not a regular file (a directory entry, or no entry
at all, so also special files outside the model), the Mime condition
evaluates to false without opening, reading or sniffing the file: the traced
evaluator returns false with its read flag unset, and it agrees with the
plain evaluator everywhere.  The evaluator is a total function, so no
exception is raised on this branch, matching the early return in the
source. -/
theorem mime_nonfile_false_no_read (env : Env) (fs : FS) (rx : String) (ic : Bool)
    (mb : Int) (p : String) (h : fs.isFile p = false) :
    Condition.eval env fs (.mimec rx ic mb) p = false ∧
    mimeEvalTrace env fs rx ic p = (false, false) ∧
    (∀ fs2 p2, (mimeEvalTrace env fs2 rx ic p2).1 =
      Condition.eval env fs2 (.mimec rx ic mb) p2) := by
  refine ⟨?_, ?_, ?_⟩
  · simp [Condition.eval, h]
  · simp [mimeEvalTrace, h]
  · intro fs2 p2
    by_cases h2 : fs2.isFile p2 <;> simp [mimeEvalTrace, Condition.eval, h2]

def fsDir : FS := ⟨[("/t/sub", dirStat)]⟩

/-- C9 witness: a directory entry is not a regular file; the Mime condition
is false on it and nothing is read. -/
theorem mime_nonfile_false_no_read_witness :
    fsDir.isFile "/t/sub" = false ∧
    Condition.eval envTriv fsDir (.mimec "image/.*" true 1024) "/t/sub" = false ∧
    mimeEvalTrace envTriv fsDir "image/.*" true "/t/sub" = (false, false) := by
  have h := mime_nonfile_false_no_read envTriv fsDir "image/.*" true 1024 "/t/sub"
    (by decide)
  exact ⟨by decide, h.1, h.2.1⟩

/-! ## C10 -/

/-- C10: a condition or action node that is a mapping with several key-value
pairs binds only its first pair as tag and arguments — the factory's result
is the same as on the mapping holding the first pair alone, whatever the
remaining pairs are, so they are silently ignored and can never raise; in
particular a well-formed first pair followed by junk pairs still constructs
successfully. -/
theorem first_key_value_pair_binds (tag : String) (args : Data) (rest : DataDict)
    (home : String) :
    mkCondition (.dict (.cons tag args rest)) =
      mkCondition (.dict (.cons tag args .nil)) ∧
    mkAction home (.dict (.cons tag args rest)) =
      mkAction home (.dict (.cons tag args .nil)) ∧
    mkCondition (.dict (.cons "path" (.str "a") (.cons "junk" (.int 3) .nil))) =
      .ok (.pathc "a") ∧
    mkAction home (.dict (.cons "delete" (.list .nil) (.cons "junk" (.int 3) .nil))) =
      .ok .delete :=
  ⟨rfl, rfl, rfl, rfl⟩

end Filemaid
